import Mathlib

/-!
Verification of the `echo-liquid-handler-tools` repository
(`src/generateEchoCherrypickFile.py` and `src/echo_cherrypicking.py`).

The development shallowly embeds the core pipeline of both scripts:

* Python-string primitives used by the scripts (`in` substring test,
  `str.split(',')`, `str.strip()`), modelled on `List Char` because
  Python strings are sequences of characters.
* the Transfer Matcher (`generate_pipetting_pattern` in both files):
  insertion-ordered dictionaries become association lists, the mutable
  `source_loads` counters become an explicit `Loads` table threaded
  through a fold over the flattened demand units.
* the Capacity Planner (`transfers_per_well`, `wells_per_BB` in
  `generateEchoCherrypickFile.py` `__main__`) with Python division
  errors made explicit via `Except`.
* the sort of the required-wells dictionary and the stage sort of
  `echo_cherrypicking.py` (`list.sort` / `sorted` are stable; they are
  modelled by insertion sort, which is extensionally the unique stable
  sort for a total decidable key order).
* the Source Layout Packer: the banded single-plate attempt, the
  one-plate-per-category fallback and the crashing `source = {0, source}`
  statement of `generateEchoCherrypickFile.py` (the only variant whose
  packing code runs), plus the `while finished is False` block of
  `echo_cherrypicking.py`, which crashes or loops before that file's
  capacity check is ever reached.

Plate keys are modelled as `Nat` (the scripts use `0`/`1..n` integer
keys and, in the fallback, the strings `'I'/'M'/'T'`; the matcher and
scheduler only test keys for equality resp. compare them, so any
order-embedding of the keys is faithful and the plate-name-to-number
`map` of both scripts realises exactly such an embedding).
-/

/-! ## Python string primitives -/

/-- `listPrefixEq n h` is true iff `n` is a prefix of `h` (character-wise). -/
def listPrefixEq : List Char → List Char → Bool
  | [], _ => true
  | _ :: _, [] => false
  | a :: as, b :: bs => a == b && listPrefixEq as bs

/-- Python's substring containment `needle in hay` on character lists:
true iff `needle` occurs contiguously in `hay` (the empty needle always
matches). -/
def pyInStr : List Char → List Char → Bool
  | n, [] => listPrefixEq n []
  | n, c :: t => listPrefixEq n (c :: t) || pyInStr n t

/-- Python's `needle in hay` for strings. -/
def pySubstr (needle hay : String) : Bool :=
  pyInStr needle.toList hay.toList

/-- Python's `s.split(',')`: splits at every comma, keeping empty pieces;
`''.split(',') = ['']`. -/
def splitCommaChars : List Char → List (List Char)
  | [] => [[]]
  | c :: t =>
    if c = ',' then [] :: splitCommaChars t
    else
      match splitCommaChars t with
      | [] => [[c]]
      | h :: r => (c :: h) :: r

/-- Python's `s.strip()`: drop whitespace from both ends. -/
def pyStrip (l : List Char) : List Char :=
  ((l.dropWhile Char.isWhitespace).reverse.dropWhile Char.isWhitespace).reverse

/-- `target_well_val.split(',')` followed by `compound.strip()` on each
piece, as in the compound loop of `generate_pipetting_pattern`. -/
def compoundsOf (v : String) : List String :=
  (splitCommaChars v.toList).map (fun cs => String.mk (pyStrip cs))

/-! ## Transfer Matcher (`generate_pipetting_pattern`, both files)

`source_dict` / `target_dict` are insertion-ordered Python dicts
`{plate key: {well key: content string}}`; they become association
lists.  `source_loads` is the per-(plate, well) counter table
initialised to `transfers_per_source_well`. -/

abbrev SourceDict := List (Nat × List (String × String))

abbrev TargetDict := List (Nat × List (String × String))

abbrev Loads := List (Nat × List (String × Int))

/-- One entry of a pipetting step list:
`[source_plate_key, source_well_key, target_plate_key, target_well_key]`. -/
structure Transfer where
  srcPlate : Nat
  srcWell : String
  tgtPlate : Nat
  tgtWell : String
deriving DecidableEq

/-- `source_loads = {i: dict.fromkeys(source_dict[i], transfers_per_source_well) ...}`. -/
def initLoads (src : SourceDict) (tpw : Int) : Loads :=
  src.map (fun pw => (pw.1, pw.2.map (fun wv => (wv.1, tpw))))

/-- Read `source_loads[p]`'s entry for well `w` (first occurrence, as in a
dict; `0` when absent — the scripts only read keys that are present). -/
def getWellLoad : List (String × Int) → String → Int
  | [], _ => 0
  | (x, v) :: t, w => if w = x then v else getWellLoad t w

/-- Read `source_loads[p][w]`. -/
def getLoad : Loads → Nat → String → Int
  | [], _, _ => 0
  | (q, ws) :: t, p, w => if p = q then getWellLoad ws w else getLoad t p w

/-- `source_loads[p][w] -= 1` on the inner dict. -/
def decWell : List (String × Int) → String → List (String × Int)
  | [], _ => []
  | (x, v) :: t, w => if w = x then (x, v - 1) :: t else (x, v) :: decWell t w

/-- `source_loads[p][w] -= 1`. -/
def decLoad : Loads → Nat → String → Loads
  | [], _, _ => []
  | (q, ws) :: t, p, w => if p = q then (q, decWell ws w) :: t else (q, ws) :: decLoad t p w

/-- The inner source-well scan: first well `w` of plate `p` (in dict
order) with `compound in source_well_val and source_loads[p][w] > 0`. -/
def findWellIn (loads : Loads) (p : Nat) (c : String) : List (String × String) → Option String
  | [] => none
  | (w, v) :: t =>
    if pySubstr c v && decide (0 < getLoad loads p w) then some w
    else findWellIn loads p c t

/-- The source-plate scan with the `for … else: continue / break` pattern:
first (plate, well) hit in allocation order, or `none`. -/
def findSourceWell (loads : Loads) (c : String) : SourceDict → Option (Nat × String)
  | [] => none
  | (p, ws) :: t =>
    match findWellIn loads p c ws with
    | some w => some (p, w)
    | none => findSourceWell loads c t

/-- Matcher state: the mutable `source_loads` plus the two step lists. -/
structure MatchState where
  loads : Loads
  step1 : List Transfer
  step2 : List Transfer
deriving DecidableEq

/-- The body of the compound loop for one demand unit
`(target_plate_key, target_well_key, compound)`: find the first eligible
source well; on a hit decrement its load and append the transfer to
step 1 (`'I' in compound or 'M' in compound`), to step 2
(`'T' in compound`), or to neither (the `else` branch only prints
`ERROR. Encountered unknown compound`); on a miss the `for…else`
`continue` silently moves on. -/
def matchStep (src : SourceDict) (st : MatchState) (u : Nat × String × String) : MatchState :=
  match findSourceWell st.loads u.2.2 src with
  | none => st
  | some (p, w) =>
    let loads := decLoad st.loads p w
    if pySubstr "I" u.2.2 || pySubstr "M" u.2.2 then
      ⟨loads, st.step1 ++ [⟨p, w, u.1, u.2.1⟩], st.step2⟩
    else if pySubstr "T" u.2.2 then
      ⟨loads, st.step1, st.step2 ++ [⟨p, w, u.1, u.2.1⟩]⟩
    else
      ⟨loads, st.step1, st.step2⟩

/-- The flattened three-level target iteration: all plates in dict order,
wells in dict order, compounds in `split(',')` order (the loop body never
mutates the target side, so flattening is faithful). -/
def demandUnits (tgt : TargetDict) : List (Nat × String × String) :=
  tgt.flatMap (fun pw => pw.2.flatMap (fun wv =>
    (compoundsOf wv.2).map (fun c => (pw.1, wv.1, c))))

/-- Initial matcher state. -/
def initState (src : SourceDict) (tpw : Int) : MatchState :=
  ⟨initLoads src tpw, [], []⟩

/-- The matcher state after processing the first `n` demand units. -/
def stateAfter (src : SourceDict) (tgt : TargetDict) (tpw : Int) (n : Nat) : MatchState :=
  ((demandUnits tgt).take n).foldl (matchStep src) (initState src tpw)

/-- The whole matching loop of `generate_pipetting_pattern`. -/
def runMatcher (src : SourceDict) (tgt : TargetDict) (tpw : Int) : MatchState :=
  (demandUnits tgt).foldl (matchStep src) (initState src tpw)

/-- `generate_pipetting_pattern` of `generateEchoCherrypickFile.py`
(lines 73–104): returns the two step lists unsorted. -/
def generate_pipetting_pattern (src : SourceDict) (tgt : TargetDict) (tpw : Int) :
    List Transfer × List Transfer :=
  let st := runMatcher src tgt tpw
  (st.step1, st.step2)

/-- Number of produced transfers drawing from source well `(p, w)`. -/
def countFrom (l : List Transfer) (p : Nat) (w : String) : Nat :=
  (l.filter (fun t => t.srcPlate == p && t.srcWell == w)).length

/-- The run invariant of the matcher: loads stay nonnegative, and the
transfers drawn from a well plus its remaining load never exceed its
initial load. -/
def MatcherInv (src : SourceDict) (tpw : Int) (st : MatchState) : Prop :=
  (∀ p w, 0 ≤ getLoad st.loads p w) ∧
  (∀ p w, (countFrom st.step1 p w + countFrom st.step2 p w : Int) + getLoad st.loads p w
    ≤ getLoad (initLoads src tpw) p w)


/-! ## Stable sorting (`list.sort` / `sorted` with a key, Timsort)

Python's sorts are stable; a stable sort for a total decidable key
order is extensionally unique, so insertion sort models them exactly. -/

/-- Insert `a` before the first element `b` with `le a b`. -/
def ordInsert (le : α → α → Bool) (a : α) : List α → List α
  | [] => [a]
  | b :: t => if le a b then a :: b :: t else b :: ordInsert le a t

/-- Stable insertion sort. -/
def insSort (le : α → α → Bool) : List α → List α
  | [] => []
  | a :: t => ordInsert le a (insSort le t)

/-- Comparison by a `Nat`-valued key. -/
def leKey (f : α → Nat) (a b : α) : Bool := decide (f a ≤ f b)

/-- `pipetting_step_1.sort(key=lambda x: x[0])` — by source plate. -/
def sortBySrcPlate (l : List Transfer) : List Transfer :=
  insSort (leKey (fun t => t.srcPlate)) l

/-- `…sort(key=lambda x: x[2])` — by target plate. -/
def sortByTgtPlate (l : List Transfer) : List Transfer :=
  insSort (leKey (fun t => t.tgtPlate)) l

/-- `generate_pipetting_pattern` of `echo_cherrypicking.py`
(lines 78–117): the matching loop followed by the stage sorts
(`sort` by source plate, then stable `sort` by target plate for step 1;
`sort` by target plate for step 2). -/
def generate_pipetting_pattern_sorted (src : SourceDict) (tgt : TargetDict) (tpw : Int) :
    List Transfer × List Transfer :=
  let st := runMatcher src tgt tpw
  (sortByTgtPlate (sortBySrcPlate st.step1), sortByTgtPlate st.step2)

/-! ## Capacity Planner (`generateEchoCherrypickFile.py` `__main__`)

`transfers_per_well = source_well_volume // transfer_volume` and
`wells_per_BB = {key: val // transfers_per_well + 1 for key, val in counter.items()}`. -/

/-- Python runtime errors surfaced by the embedded `__main__` code, plus
the spec's `ConfigurationError` and the `NotImplementedError` of
`echo_cherrypicking.py` line 234 (dead code) — neither of which any
modelled path raises. -/
inductive PyErr where
  | stopIteration
  | typeError
  | zeroDivisionError
  | notImplementedCapacity
  | configurationError
deriving DecidableEq

/-- A building-block (reagent) code: one-letter category and numeric
suffix; its string form is `f'{cat}{num}'`, so `key[:1]` is `cat` (as a
one-character string, compared by code point), `int(key[1:])` is `num`,
and `key.startswith(bb)` for a one-letter `bb` is `cat = bb`. -/
structure BB where
  cat : Char
  num : Nat
deriving DecidableEq

/-- The code string `f'{cat}{num}'` of a building block. -/
def bbStr (b : BB) : String := String.mk (b.cat :: (toString b.num).toList)

/-- `transfers_per_well = source_well_volume // transfer_volume`
(`generateEchoCherrypickFile.py` line 178; both operands are positive
literals in the script, so Python's `//` is truncating division). -/
def transfersPerWellCalc (usable vol : Nat) : Nat := usable / vol

/-- Python's `//` on naturals, raising `ZeroDivisionError` on a zero divisor. -/
def pyDiv (a b : Nat) : Except PyErr Nat :=
  if b = 0 then .error .zeroDivisionError else .ok (a / b)

/-- `wells_per_BB = {key: val // transfers_per_well + 1 …}`
(`generateEchoCherrypickFile.py` line 179), evaluated entry by entry as
the comprehension does, so a zero `transfers_per_well` raises
`ZeroDivisionError` at the first entry. -/
def wellsPerBBDict (counter : List (BB × Nat)) (tpw : Nat) : Except PyErr (List (BB × Nat)) :=
  match counter with
  | [] => .ok []
  | (k, v) :: rest =>
    match pyDiv v tpw with
    | .error e => .error e
    | .ok q =>
      match wellsPerBBDict rest tpw with
      | .error e => .error e
      | .ok r => .ok ((k, q + 1) :: r)

/-- The two sorts of the required-wells dict (both files):
`sorted(…, key=lambda item: int(item[0][1:]))` then
`sorted(…, key=lambda item: item[0][:1])`; `sorted` is stable. -/
def sortWellsPerBB (l : List (BB × Nat)) : List (BB × Nat) :=
  insSort (leKey (fun it => it.1.cat.toNat)) (insSort (leKey (fun it => it.1.num)) l)

/-! ## Source Layout Packer (`__main__` of both files) -/

/-- `string.ascii_uppercase`. -/
def asciiUppercase : List Char := "ABCDEFGHIJKLMNOPQRSTUVWXYZ".toList

/-- The well-name generator
`(f'{row}{column + 1}' for row in string.ascii_uppercase[rlo:rhi] for column in range(cols))`,
materialised in yield order. -/
def bandWells (rlo rhi cols : Nat) : List String :=
  ((asciiUppercase.drop rlo).take (rhi - rlo)).flatMap (fun r =>
    (List.range cols).map (fun c => String.mk (r :: (toString (c + 1)).toList)))

/-- The inner `while val > 0: source[next(wells)] = key; val -= 1` loop:
take `val` wells from the generator for code `key`, raising
`StopIteration` when the generator runs dry. -/
def takeWells (source : List (String × String)) (gen : List String) (key : String) :
    Nat → Except PyErr (List (String × String) × List String)
  | 0 => .ok (source, gen)
  | v + 1 =>
    match gen with
    | [] => .error .stopIteration
    | w :: g => takeWells (source ++ [(w, key)]) g key v

/-- `for key, val in wells_per_BB.items(): if key.startswith(bb): while val > 0 …`
for one category `bb`, consuming from generator `gen`. -/
def packCategory (wpb : List (BB × Nat)) (bb : Char) (source : List (String × String))
    (gen : List String) : Except PyErr (List (String × String) × List String) :=
  match wpb with
  | [] => .ok (source, gen)
  | (k, v) :: rest =>
    if k.cat = bb then
      match takeWells source gen (bbStr k) v with
      | .error e => .error e
      | .ok (s, g) => packCategory rest bb s g
    else
      packCategory rest bb source gen

/-- The single-plate banded attempt (both files): three row bands
`[0 : rows//3]`, `[rows//3 : 2*rows//3]`, `[2*rows//3 : rows]`, one
generator per category, filled in category order `I, M, T` over the
sorted `wells_per_BB`. -/
def bandedPack (wpb : List (BB × Nat)) (rows cols : Nat) :
    Except PyErr (List (String × String)) :=
  match packCategory wpb 'I' [] (bandWells 0 (rows / 3) cols) with
  | .error e => .error e
  | .ok (s, _) =>
    match packCategory wpb 'M' s (bandWells (rows / 3) (2 * rows / 3) cols) with
    | .error e => .error e
    | .ok (s, _) =>
      match packCategory wpb 'T' s (bandWells (2 * rows / 3) rows cols) with
      | .error e => .error e
      | .ok (s, _) => .ok s

/-- The one-plate-per-category fallback (both files): a fresh full-plate
generator `[0 : rows]` per category; a category whose requirement
exceeds the plate makes `next(wells)` raise `StopIteration`, which no
handler catches on this path. -/
def fallbackPack (wpb : List (BB × Nat)) (rows cols : Nat) :
    Except PyErr (List (Char × List (String × String))) :=
  match packCategory wpb 'I' [] (bandWells 0 rows cols) with
  | .error e => .error e
  | .ok (sI, _) =>
    match packCategory wpb 'M' [] (bandWells 0 rows cols) with
    | .error e => .error e
    | .ok (sM, _) =>
      match packCategory wpb 'T' [] (bandWells 0 rows cols) with
      | .error e => .error e
      | .ok (sT, _) => .ok [('I', sI), ('M', sM), ('T', sT)]

/-- The packing result: a single plate (dict key `0`) or one plate per
category (dict keys `'I'`, `'M'`, `'T'`). -/
inductive PackResult where
  | one (s : List (String × String))
  | three (s : List (Char × List (String × String)))
deriving DecidableEq

/-- The packing flow of `generateEchoCherrypickFile.py` (lines 186–214):
try the banded single-plate layout; if it completes, the next statement
`source = {0, source}` builds a *set* containing the `source` dict —
hashing a dict raises `TypeError`, and the surrounding `try` only
catches `StopIteration`, so the success path always crashes; on
`StopIteration` the handler runs the fallback, whose own
`StopIteration` (category bigger than a full plate) propagates uncaught.
There is no capacity check in this file. -/
def mainPackGen (wpb : List (BB × Nat)) (rows cols : Nat) : Except PyErr PackResult :=
  match bandedPack wpb rows cols with
  | .ok _ => .error .typeError
  | .error .stopIteration =>
    match fallbackPack wpb rows cols with
    | .ok s => .ok (.three s)
    | .error e => .error e
  | .error e => .error e

/-- In `echo_cherrypicking.py` the capacity check (lines 227–234, the
only place that could raise the
`NotImplementedError('Cannot exceed one source plate per building block')`)
sits *after* the block at lines 215–225:
`source_plates = []; finished = False; i = 0;
while finished is False: source_plates.append(plates.Plate(…));
plate = source_plates[i];
for key, val in wells_per_bb.values(): plate.free()`.
This models one iteration of that `while` body, returning the raised
error or the value of `finished` after the body.  The values of
`wells_per_bb` are ints, so with a nonempty dict the tuple unpacking
`for key, val in …` raises `TypeError` at its first item; with an empty
dict the `for` body runs zero times — and nothing in the body ever
assigns `finished`, so the loop guard `finished is False` can never
become false: the `while` loop exits only if some iteration returns
`ok true`, which never happens, and everything from line 227 on is dead
code. -/
def echoWhileBody (wpb : List (BB × Nat)) (finished : Bool) : Except PyErr Bool :=
  match wpb with
  | [] => .ok finished
  | _ :: _ => .error .typeError

/-- Total well requirement of one category in `wells_per_BB`. -/
def catTotal (wpb : List (BB × Nat)) (bb : Char) : Nat :=
  ((wpb.filter (fun kv => kv.1.cat = bb)).map Prod.snd).sum
/-! ## Concrete inputs used by the claim instances -/

/-- A source allocation with one plate holding one well assigned `I1`. -/
def srcOne : SourceDict := [(1, [("A1", "I1")])]

/-- A source allocation whose only well is assigned `I12`. -/
def srcSub : SourceDict := [(1, [("A1", "I12")])]

/-- One target well demanding compound `I1`. -/
def tgtReq : TargetDict := [(1, [("B1", "I1")])]

/-- One target well demanding compound `T9`. -/
def tgtT9 : TargetDict := [(1, [("B1", "T9")])]

/-- One target well whose content is the category-less compound `1`. -/
def tgtBare : TargetDict := [(1, [("B1", "1")])]

/-- A required-wells dict with codes `M1` and `I2`. -/
def exSort : List (BB × Nat) := [(⟨'M', 1⟩, 1), (⟨'I', 2⟩, 1)]

/-- One category needing 4 wells (overflows a 3-well plate). -/
def exOverCat : List (BB × Nat) := [(⟨'I', 1⟩, 4)]

/-- One category needing 1 well (fits the banded layout of a tiny plate). -/
def exFitsBand : List (BB × Nat) := [(⟨'I', 1⟩, 1)]

/-! ## Lemmas about stable insertion sort -/

theorem mem_ordInsert (le : α → α → Bool) (a x : α) :
    ∀ l : List α, x ∈ ordInsert le a l ↔ x = a ∨ x ∈ l := by
  intro l
  induction l with
  | nil => simp [ordInsert]
  | cons b t ih =>
    by_cases h : le a b = true
    · simp [ordInsert, h]
    · have h2 : le a b = false := by simpa using h
      simp only [ordInsert, h2, Bool.false_eq_true, if_false, List.mem_cons, ih]
      tauto

theorem mem_insSort (le : α → α → Bool) (x : α) :
    ∀ l : List α, x ∈ insSort le l ↔ x ∈ l := by
  intro l
  induction l with
  | nil => simp [insSort]
  | cons a t ih => simp [insSort, mem_ordInsert, ih]

theorem pairwise_ordInsert_key (f : α → Nat) (a : α) :
    ∀ l : List α, l.Pairwise (fun x y => f x ≤ f y) →
      (ordInsert (leKey f) a l).Pairwise (fun x y => f x ≤ f y) := by
  intro l
  induction l with
  | nil => simp [ordInsert]
  | cons b t ih =>
    intro hp
    rw [List.pairwise_cons] at hp
    by_cases h : leKey f a b = true
    · rw [leKey, decide_eq_true_eq] at h
      simp only [ordInsert, leKey, decide_eq_true_eq, if_pos h]
      rw [List.pairwise_cons]
      constructor
      · intro x hx
        rcases List.mem_cons.mp hx with rfl | hx
        · exact h
        · exact le_trans h (hp.1 x hx)
      · rw [List.pairwise_cons]
        exact hp
    · rw [leKey, decide_eq_true_eq] at h
      push_neg at h
      simp only [ordInsert, leKey, decide_eq_true_eq, if_neg (not_le.mpr h)]
      rw [List.pairwise_cons]
      constructor
      · intro x hx
        rcases (mem_ordInsert _ _ _ _).mp hx with rfl | hx
        · exact le_of_lt h
        · exact hp.1 x hx
      · exact ih hp.2

theorem pairwise_insSort_key (f : α → Nat) :
    ∀ l : List α, (insSort (leKey f) l).Pairwise (fun x y => f x ≤ f y) := by
  intro l
  induction l with
  | nil => simp [insSort]
  | cons a t ih => exact pairwise_ordInsert_key f a _ ih

theorem pairwise_ordInsert_lex (f g : α → Nat) (a : α) :
    ∀ l : List α,
      l.Pairwise (fun x y => g x < g y ∨ (g x = g y ∧ f x ≤ f y)) →
      (∀ x ∈ l, f a ≤ f x) →
      (ordInsert (leKey g) a l).Pairwise
        (fun x y => g x < g y ∨ (g x = g y ∧ f x ≤ f y)) := by
  intro l
  induction l with
  | nil => simp [ordInsert]
  | cons b t ih =>
    intro hp ha
    rw [List.pairwise_cons] at hp
    by_cases h : leKey g a b = true
    · rw [leKey, decide_eq_true_eq] at h
      simp only [ordInsert, leKey, decide_eq_true_eq, if_pos h]
      rw [List.pairwise_cons]
      refine ⟨?_, List.pairwise_cons.mpr hp⟩
      intro x hx
      have hgax : g a ≤ g x := by
        rcases List.mem_cons.mp hx with rfl | hx
        · exact h
        · rcases hp.1 x hx with hlt | ⟨heq, _⟩
          · exact le_trans h (le_of_lt hlt)
          · exact le_trans h (le_of_eq heq)
      rcases lt_or_eq_of_le hgax with hlt | heq
      · exact Or.inl hlt
      · exact Or.inr ⟨heq, ha x hx⟩
    · rw [leKey, decide_eq_true_eq] at h
      push_neg at h
      simp only [ordInsert, leKey, decide_eq_true_eq, if_neg (not_le.mpr h)]
      rw [List.pairwise_cons]
      constructor
      · intro x hx
        rcases (mem_ordInsert _ _ _ _).mp hx with rfl | hx
        · exact Or.inl h
        · exact hp.1 x hx
      · refine ih hp.2 ?_
        intro x hx
        exact ha x (List.mem_cons_of_mem b hx)

theorem pairwise_insSort_lex (f g : α → Nat) :
    ∀ l : List α, l.Pairwise (fun x y => f x ≤ f y) →
      (insSort (leKey g) l).Pairwise
        (fun x y => g x < g y ∨ (g x = g y ∧ f x ≤ f y)) := by
  intro l
  induction l with
  | nil => simp [insSort]
  | cons a t ih =>
    intro hp
    rw [List.pairwise_cons] at hp
    refine pairwise_ordInsert_lex f g a _ (ih hp.2) ?_
    intro x hx
    exact hp.1 x ((mem_insSort _ _ _).mp hx)

theorem filter_ordInsert_keyconst (f : α → Nat) (p : α → Bool)
    (hp : ∀ x y, p x = true → p y = true → f x = f y) (a : α) :
    ∀ l : List α, (ordInsert (leKey f) a l).filter p
      = if p a then a :: l.filter p else l.filter p := by
  intro l
  induction l with
  | nil =>
    cases hpa : p a <;> simp [ordInsert, List.filter, hpa]
  | cons b t ih =>
    by_cases h : leKey f a b = true
    · simp only [ordInsert, if_pos h]
      cases hpa : p a <;> simp [List.filter, hpa]
    · rw [leKey, decide_eq_true_eq] at h
      push_neg at h
      simp only [ordInsert, leKey, decide_eq_true_eq, if_neg (not_le.mpr h)]
      cases hpa : p a with
      | false =>
        cases hpb : p b <;> simp [List.filter, hpa, hpb, ih]
      | true =>
        have hpb : p b = false := by
          cases hpb : p b with
          | false => rfl
          | true => exact absurd (hp a b hpa hpb) (ne_of_gt h)
        simp [List.filter, hpa, hpb, ih]

theorem filter_insSort_keyconst (f : α → Nat) (p : α → Bool)
    (hp : ∀ x y, p x = true → p y = true → f x = f y) :
    ∀ l : List α, (insSort (leKey f) l).filter p = l.filter p := by
  intro l
  induction l with
  | nil => simp [insSort]
  | cons a t ih =>
    rw [insSort, filter_ordInsert_keyconst f p hp]
    cases hpa : p a <;> simp [List.filter, hpa, ih]

/-! ## Lemmas about the Transfer Matcher -/

theorem findWellIn_spec (loads : Loads) (p : Nat) (c : String) :
    ∀ ws : List (String × String), ∀ w : String,
      findWellIn loads p c ws = some w →
      ∃ v, (w, v) ∈ ws ∧ pySubstr c v = true ∧ 0 < getLoad loads p w := by
  intro ws
  induction ws with
  | nil => intro w h; simp [findWellIn] at h
  | cons wv t ih =>
    intro w h
    obtain ⟨x, v⟩ := wv
    rw [findWellIn] at h
    by_cases hc : (pySubstr c v && decide (0 < getLoad loads p x)) = true
    · rw [if_pos hc] at h
      obtain rfl : x = w := by injection h
      rw [Bool.and_eq_true, decide_eq_true_eq] at hc
      exact ⟨v, List.mem_cons_self _ _, hc.1, hc.2⟩
    · rw [if_neg hc] at h
      obtain ⟨v2, hm, hs, hl⟩ := ih w h
      exact ⟨v2, List.mem_cons_of_mem _ hm, hs, hl⟩

theorem findSourceWell_spec (loads : Loads) (c : String) :
    ∀ src : SourceDict, ∀ p : Nat, ∀ w : String,
      findSourceWell loads c src = some (p, w) →
      ∃ ws v, (p, ws) ∈ src ∧ (w, v) ∈ ws ∧ pySubstr c v = true ∧
        0 < getLoad loads p w := by
  intro src
  induction src with
  | nil => intro p w h; simp [findSourceWell] at h
  | cons qws t ih =>
    intro p w h
    obtain ⟨q, ws⟩ := qws
    rw [findSourceWell] at h
    cases hf : findWellIn loads q c ws with
    | some x =>
      rw [hf] at h
      injection h with h1
      injection h1 with h2 h3
      subst h2
      subst h3
      obtain ⟨v, hm, hs, hl⟩ := findWellIn_spec loads q c ws x hf
      exact ⟨ws, v, List.mem_cons_self _ _, hm, hs, hl⟩
    | none =>
      rw [hf] at h
      obtain ⟨ws2, v, hm, hm2, hs, hl⟩ := ih p w h
      exact ⟨ws2, v, List.mem_cons_of_mem _ hm, hm2, hs, hl⟩

theorem getWellLoad_decWell_self (w : String) :
    ∀ ws : List (String × Int), getWellLoad ws w ≠ 0 →
      getWellLoad (decWell ws w) w = getWellLoad ws w - 1 := by
  intro ws
  induction ws with
  | nil => intro h; simp [getWellLoad] at h
  | cons xv t ih =>
    intro h
    obtain ⟨x, v⟩ := xv
    by_cases hx : w = x
    · simp [getWellLoad, decWell, hx]
    · rw [getWellLoad, if_neg hx] at h
      simp [getWellLoad, decWell, hx, ih h]

theorem getWellLoad_decWell_ne (w w' : String) (hne : w' ≠ w) :
    ∀ ws : List (String × Int),
      getWellLoad (decWell ws w) w' = getWellLoad ws w' := by
  intro ws
  induction ws with
  | nil => simp [decWell]
  | cons xv t ih =>
    obtain ⟨x, v⟩ := xv
    by_cases hx : w = x
    · subst hx
      simp [decWell, getWellLoad, hne, if_neg hne]
    · by_cases hx2 : w' = x
      · simp [decWell, getWellLoad, hx, hx2]
      · simp [decWell, getWellLoad, hx, hx2, ih]

theorem getLoad_decLoad_self (p : Nat) (w : String) :
    ∀ L : Loads, getLoad L p w ≠ 0 →
      getLoad (decLoad L p w) p w = getLoad L p w - 1 := by
  intro L
  induction L with
  | nil => intro h; simp [getLoad] at h
  | cons qws t ih =>
    intro h
    obtain ⟨q, ws⟩ := qws
    by_cases hq : p = q
    · rw [getLoad, if_pos hq] at h
      simp [decLoad, getLoad, hq, getWellLoad_decWell_self w ws h]
    · rw [getLoad, if_neg hq] at h
      simp [decLoad, getLoad, hq, ih h]

theorem getLoad_decLoad_ne (p p' : Nat) (w w' : String)
    (hne : ¬(p' = p ∧ w' = w)) :
    ∀ L : Loads, getLoad (decLoad L p w) p' w' = getLoad L p' w' := by
  intro L
  induction L with
  | nil => simp [decLoad]
  | cons qws t ih =>
    obtain ⟨q, ws⟩ := qws
    by_cases hq : p = q
    · subst hq
      by_cases hq2 : p' = p
      · subst hq2
        have hw : w' ≠ w := fun hw => hne ⟨rfl, hw⟩
        simp [decLoad, getLoad, getWellLoad_decWell_ne w w' hw]
      · simp [decLoad, getLoad, hq2]
    · by_cases hq2 : p' = q
      · simp [decLoad, getLoad, hq, hq2]
      · simp [decLoad, getLoad, hq, hq2, ih]

theorem getWellLoad_initWells (tpw : Int) (w : String) :
    ∀ ws : List (String × String),
      getWellLoad (ws.map (fun wv => (wv.1, tpw))) w = tpw ∨
      getWellLoad (ws.map (fun wv => (wv.1, tpw))) w = 0 := by
  intro ws
  induction ws with
  | nil => right; simp [getWellLoad]
  | cons xv t ih =>
    by_cases hx : w = xv.1
    · left; simp [getWellLoad, hx]
    · simpa [getWellLoad, hx] using ih

theorem getLoad_initLoads_or (src : SourceDict) (tpw : Int) (p : Nat) (w : String) :
    getLoad (initLoads src tpw) p w = tpw ∨ getLoad (initLoads src tpw) p w = 0 := by
  induction src with
  | nil => right; simp [initLoads, getLoad]
  | cons qws t ih =>
    by_cases hq : p = qws.1
    · simpa [initLoads, getLoad, hq] using getWellLoad_initWells tpw w qws.2
    · simpa [initLoads, getLoad, hq] using ih

theorem getWellLoad_initWells_mem (tpw : Int) (w : String) (v : String) :
    ∀ ws : List (String × String), (w, v) ∈ ws →
      getWellLoad (ws.map (fun wv => (wv.1, tpw))) w = tpw := by
  intro ws
  induction ws with
  | nil => intro h; simp at h
  | cons xv t ih =>
    intro h
    by_cases hx : w = xv.1
    · simp [getWellLoad, hx]
    · rcases List.mem_cons.mp h with heq | hm
      · exact absurd (congrArg Prod.fst heq) hx
      · simpa [getWellLoad, hx] using ih hm

theorem getLoad_initLoads_mem (tpw : Int) (p : Nat) (w : String) (v : String) :
    ∀ src : SourceDict, (src.map Prod.fst).Nodup →
      ∀ ws, (p, ws) ∈ src → (w, v) ∈ ws →
        getLoad (initLoads src tpw) p w = tpw := by
  intro src
  induction src with
  | nil => intro _ ws h; simp at h
  | cons qws t ih =>
    intro hnd ws hmem hw
    rw [List.map_cons, List.nodup_cons] at hnd
    rcases List.mem_cons.mp hmem with heq | hm
    · obtain ⟨hq, hws⟩ : qws.1 = p ∧ qws.2 = ws := by
        rw [← heq]
        exact ⟨rfl, rfl⟩
      subst hws
      simp only [initLoads, List.map_cons, getLoad, hq, if_pos rfl]
      exact getWellLoad_initWells_mem tpw w v qws.2 hw
    · have hp : p ≠ qws.1 := by
        intro hpq
        exact hnd.1 (hpq ▸ List.mem_map_of_mem Prod.fst hm)
      simpa [initLoads, getLoad, hp] using ih hnd.2 ws hm hw

theorem countFrom_append (a b : List Transfer) (p : Nat) (w : String) :
    countFrom (a ++ b) p w = countFrom a p w + countFrom b p w := by
  simp [countFrom, List.filter_append]

theorem countFrom_single (t : Transfer) (p : Nat) (w : String) :
    countFrom [t] p w = if t.srcPlate = p ∧ t.srcWell = w then 1 else 0 := by
  by_cases h1 : t.srcPlate = p
  · by_cases h2 : t.srcWell = w
    · simp [countFrom, List.filter_singleton, h1, h2]
    · simp [countFrom, List.filter_singleton, h1, h2]
  · simp [countFrom, List.filter_singleton, h1]

theorem matchStep_none (src : SourceDict) (st : MatchState) (u : Nat × String × String)
    (h : findSourceWell st.loads u.2.2 src = none) : matchStep src st u = st := by
  rw [matchStep, h]

theorem matchStep_loads_some (src : SourceDict) (st : MatchState)
    (u : Nat × String × String) (q : Nat) (x : String)
    (h : findSourceWell st.loads u.2.2 src = some (q, x)) :
    (matchStep src st u).loads = decLoad st.loads q x := by
  rw [matchStep, h]
  by_cases h1 : (pySubstr "I" u.2.2 || pySubstr "M" u.2.2) = true
  · simp [h1]
  · have h1f : (pySubstr "I" u.2.2 || pySubstr "M" u.2.2) = false := by simpa using h1
    by_cases h2 : pySubstr "T" u.2.2 = true
    · simp [h1f, h2]
    · have h2f : pySubstr "T" u.2.2 = false := by simpa using h2
      simp [h1f, h2f]

theorem matchStep_count_some (src : SourceDict) (st : MatchState)
    (u : Nat × String × String) (q : Nat) (x : String)
    (h : findSourceWell st.loads u.2.2 src = some (q, x)) (p : Nat) (w : String) :
    countFrom (matchStep src st u).step1 p w + countFrom (matchStep src st u).step2 p w
      ≤ countFrom st.step1 p w + countFrom st.step2 p w
        + (if q = p ∧ x = w then 1 else 0) := by
  simp only [matchStep, h]
  have hcnt : countFrom [(⟨q, x, u.1, u.2.1⟩ : Transfer)] p w
      = if q = p ∧ x = w then 1 else 0 := countFrom_single _ p w
  clear h
  split
  · simp only [countFrom_append, hcnt]
    omega
  · split
    · simp only [countFrom_append, hcnt]
      omega
    · dsimp only
      omega

theorem foldl_preserve {β γ : Type} (f : β → γ → β) (P : β → Prop)
    (h : ∀ b a, P b → P (f b a)) :
    ∀ (l : List γ) (b : β), P b → P (l.foldl f b) := by
  intro l
  induction l with
  | nil => intro b hb; simpa using hb
  | cons a t ih =>
    intro b hb
    rw [List.foldl_cons]
    exact ih (f b a) (h b a hb)

theorem matcherInv_init (src : SourceDict) (tpw : Int) (h : 0 ≤ tpw) :
    MatcherInv src tpw (initState src tpw) := by
  constructor
  · intro p w
    dsimp only [initState]
    rcases getLoad_initLoads_or src tpw p w with he | he <;> omega
  · intro p w
    simp [initState, countFrom]

theorem matcherInv_step (src : SourceDict) (tpw : Int) (st : MatchState)
    (u : Nat × String × String) (h : MatcherInv src tpw st) :
    MatcherInv src tpw (matchStep src st u) := by
  cases hf : findSourceWell st.loads u.2.2 src with
  | none => rw [matchStep_none src st u hf]; exact h
  | some qx =>
    obtain ⟨q, x⟩ := qx
    obtain ⟨ws, v, _, _, _, hpos⟩ := findSourceWell_spec st.loads u.2.2 src q x hf
    have hloads := matchStep_loads_some src st u q x hf
    constructor
    · intro p w
      rw [hloads]
      by_cases hqx : q = p ∧ x = w
      · obtain ⟨rfl, rfl⟩ := hqx
        rw [getLoad_decLoad_self _ _ st.loads (by omega)]
        omega
      · have hne : ¬(p = q ∧ w = x) := fun hc => hqx ⟨hc.1.symm, hc.2.symm⟩
        rw [getLoad_decLoad_ne q p x w hne st.loads]
        exact h.1 p w
    · intro p w
      have hc := matchStep_count_some src st u q x hf p w
      rw [hloads]
      by_cases hqx : q = p ∧ x = w
      · rw [if_pos hqx] at hc
        obtain ⟨rfl, rfl⟩ := hqx
        rw [getLoad_decLoad_self _ _ st.loads (by omega)]
        have h2 := h.2 q x
        omega
      · rw [if_neg hqx] at hc
        have hne : ¬(p = q ∧ w = x) := fun hc2 => hqx ⟨hc2.1.symm, hc2.2.symm⟩
        rw [getLoad_decLoad_ne q p x w hne st.loads]
        have h2 := h.2 p w
        omega

theorem matcherInv_stateAfter (src : SourceDict) (tgt : TargetDict) (tpw : Int)
    (h : 0 ≤ tpw) (n : Nat) : MatcherInv src tpw (stateAfter src tgt tpw n) :=
  foldl_preserve (matchStep src) (MatcherInv src tpw)
    (fun st u => matcherInv_step src tpw st u) _ _ (matcherInv_init src tpw h)

theorem matcherInv_runMatcher (src : SourceDict) (tgt : TargetDict) (tpw : Int)
    (h : 0 ≤ tpw) : MatcherInv src tpw (runMatcher src tgt tpw) :=
  foldl_preserve (matchStep src) (MatcherInv src tpw)
    (fun st u => matcherInv_step src tpw st u) _ _ (matcherInv_init src tpw h)

theorem stateAfter_succ (src : SourceDict) (tgt : TargetDict) (tpw : Int)
    (n : Nat) (hn : n < (demandUnits tgt).length) :
    stateAfter src tgt tpw (n + 1)
      = matchStep src (stateAfter src tgt tpw n) ((demandUnits tgt).get ⟨n, hn⟩) := by
  rw [stateAfter, stateAfter, List.take_succ]
  have hget : (demandUnits tgt)[n]? = some ((demandUnits tgt).get ⟨n, hn⟩) := by
    rw [List.getElem?_eq_getElem hn]
    rfl
  rw [hget]
  simp only [Option.toList_some, List.foldl_append, List.foldl_cons, List.foldl_nil]

/-! ## Lemmas about the Source Layout Packer -/

theorem takeWells_err (key : String) :
    ∀ (v : Nat) (gen : List String) (source : List (String × String)),
      gen.length < v → takeWells source gen key v = .error .stopIteration := by
  intro v
  induction v with
  | zero => intro gen source h; omega
  | succ n ih =>
    intro gen source h
    cases gen with
    | nil => rfl
    | cons w g =>
      rw [takeWells]
      exact ih g _ (by simpa using h)

theorem takeWells_ok (key : String) :
    ∀ (v : Nat) (gen : List String) (source : List (String × String)),
      v ≤ gen.length →
      takeWells source gen key v
        = .ok (source ++ (gen.take v).map (fun w => (w, key)), gen.drop v) := by
  intro v
  induction v with
  | zero => intro gen source h; simp [takeWells]
  | succ n ih =>
    intro gen source h
    cases gen with
    | nil => simp at h
    | cons w g =>
      rw [takeWells, ih g _ (by simpa using h)]
      simp

theorem catTotal_cons (k : BB) (v : Nat) (rest : List (BB × Nat)) (bb : Char) :
    catTotal ((k, v) :: rest) bb
      = (if k.cat = bb then v else 0) + catTotal rest bb := by
  by_cases h : k.cat = bb <;> simp [catTotal, List.filter_cons, h]

theorem packCategory_err (bb : Char) :
    ∀ (wpb : List (BB × Nat)) (source : List (String × String)) (gen : List String),
      gen.length < catTotal wpb bb →
      packCategory wpb bb source gen = .error .stopIteration := by
  intro wpb
  induction wpb with
  | nil => intro source gen h; simp [catTotal] at h
  | cons kv rest ih =>
    intro source gen h
    obtain ⟨k, v⟩ := kv
    rw [catTotal_cons] at h
    rw [packCategory]
    by_cases hc : k.cat = bb
    · rw [if_pos hc]
      rw [if_pos hc] at h
      by_cases hv : gen.length < v
      · rw [takeWells_err _ _ _ _ hv]
      · push_neg at hv
        rw [takeWells_ok _ _ _ _ hv]
        exact ih _ (gen.drop v) (by simp [List.length_drop]; omega)
    · rw [if_neg hc]
      rw [if_neg hc] at h
      exact ih source gen (by omega)

theorem packCategory_ok_ex (bb : Char) :
    ∀ (wpb : List (BB × Nat)) (source : List (String × String)) (gen : List String),
      catTotal wpb bb ≤ gen.length →
      ∃ r, packCategory wpb bb source gen = .ok r := by
  intro wpb
  induction wpb with
  | nil => intro source gen _; exact ⟨(source, gen), rfl⟩
  | cons kv rest ih =>
    intro source gen h
    obtain ⟨k, v⟩ := kv
    rw [catTotal_cons] at h
    rw [packCategory]
    by_cases hc : k.cat = bb
    · rw [if_pos hc]
      rw [if_pos hc] at h
      have hv : v ≤ gen.length := by omega
      rw [takeWells_ok _ _ _ _ hv]
      exact ih _ (gen.drop v) (by simp [List.length_drop]; omega)
    · rw [if_neg hc]
      rw [if_neg hc] at h
      exact ih source gen (by omega)

theorem packCategory_err_eq (bb : Char) (wpb : List (BB × Nat))
    (source : List (String × String)) (gen : List String) (e : PyErr)
    (h : packCategory wpb bb source gen = .error e) : e = .stopIteration := by
  by_cases hlen : catTotal wpb bb ≤ gen.length
  · obtain ⟨r, hr⟩ := packCategory_ok_ex bb wpb source gen hlen
    rw [hr] at h
    cases h
  · push_neg at hlen
    rw [packCategory_err bb wpb source gen hlen] at h
    injection h with h1
    exact h1.symm
theorem bandedPack_err_eq (wpb : List (BB × Nat)) (rows cols : Nat) (e : PyErr)
    (h : bandedPack wpb rows cols = .error e) : e = .stopIteration := by
  rw [bandedPack] at h
  cases h1 : packCategory wpb 'I' [] (bandWells 0 (rows / 3) cols) with
  | error e1 =>
    simp only [h1] at h
    injection h with h2
    exact h2 ▸ packCategory_err_eq _ _ _ _ _ h1
  | ok r1 =>
    obtain ⟨s1, g1⟩ := r1
    simp only [h1] at h
    cases h2 : packCategory wpb 'M' s1 (bandWells (rows / 3) (2 * rows / 3) cols) with
    | error e2 =>
      simp only [h2] at h
      injection h with h3
      exact h3 ▸ packCategory_err_eq _ _ _ _ _ h2
    | ok r2 =>
      obtain ⟨s2, g2⟩ := r2
      simp only [h2] at h
      cases h3 : packCategory wpb 'T' s2 (bandWells (2 * rows / 3) rows cols) with
      | error e3 =>
        simp only [h3] at h
        injection h with h4
        exact h4 ▸ packCategory_err_eq _ _ _ _ _ h3
      | ok r3 =>
        obtain ⟨s3, g3⟩ := r3
        simp only [h3] at h
        cases h

theorem fallbackPack_err_eq (wpb : List (BB × Nat)) (rows cols : Nat) (e : PyErr)
    (h : fallbackPack wpb rows cols = .error e) : e = .stopIteration := by
  rw [fallbackPack] at h
  cases h1 : packCategory wpb 'I' [] (bandWells 0 rows cols) with
  | error e1 =>
    simp only [h1] at h
    injection h with h2
    exact h2 ▸ packCategory_err_eq _ _ _ _ _ h1
  | ok r1 =>
    obtain ⟨s1, g1⟩ := r1
    simp only [h1] at h
    cases h2 : packCategory wpb 'M' [] (bandWells 0 rows cols) with
    | error e2 =>
      simp only [h2] at h
      injection h with h3
      exact h3 ▸ packCategory_err_eq _ _ _ _ _ h2
    | ok r2 =>
      obtain ⟨s2, g2⟩ := r2
      simp only [h2] at h
      cases h3 : packCategory wpb 'T' [] (bandWells 0 rows cols) with
      | error e3 =>
        simp only [h3] at h
        injection h with h4
        exact h4 ▸ packCategory_err_eq _ _ _ _ _ h3
      | ok r3 =>
        obtain ⟨s3, g3⟩ := r3
        simp only [h3] at h
        cases h

theorem fallbackPack_err_of_cat (wpb : List (BB × Nat)) (rows cols : Nat)
    (h : ∃ bb ∈ (['I', 'M', 'T'] : List Char),
      (bandWells 0 rows cols).length < catTotal wpb bb) :
    fallbackPack wpb rows cols = .error .stopIteration := by
  rw [fallbackPack]
  by_cases hI : (bandWells 0 rows cols).length < catTotal wpb 'I'
  · rw [packCategory_err _ _ _ _ hI]
  · push_neg at hI
    obtain ⟨r1, hr1⟩ := packCategory_ok_ex 'I' wpb [] _ hI
    obtain ⟨s1, g1⟩ := r1
    rw [hr1]
    by_cases hM : (bandWells 0 rows cols).length < catTotal wpb 'M'
    · rw [packCategory_err _ _ _ _ hM]
    · push_neg at hM
      obtain ⟨r2, hr2⟩ := packCategory_ok_ex 'M' wpb [] _ hM
      obtain ⟨s2, g2⟩ := r2
      rw [hr2]
      have hT : (bandWells 0 rows cols).length < catTotal wpb 'T' := by
        obtain ⟨bb, hbb, hlt⟩ := h
        simp only [List.mem_cons, List.not_mem_nil, or_false] at hbb
        rcases hbb with rfl | rfl | rfl
        · omega
        · omega
        · exact hlt
      rw [packCategory_err _ _ _ _ hT]
theorem bandWells_length (rows cols : Nat) (h : rows ≤ 26) :
    (bandWells 0 rows cols).length = rows * cols := by
  rw [bandWells]
  have hlen : ∀ L : List Char,
      (L.flatMap (fun r => (List.range cols).map
        (fun c => String.mk (r :: (toString (c + 1)).toList)))).length
        = L.length * cols := by
    intro L
    induction L with
    | nil => simp
    | cons a t ih =>
      rw [List.flatMap_cons, List.length_append, ih]
      simp only [List.length_map, List.length_range, List.length_cons]
      ring
  rw [hlen]
  have h26 : asciiUppercase.length = 26 := rfl
  simp [h26]
  omega

theorem mainPackGen_ne_capacity (wpb : List (BB × Nat)) (rows cols : Nat) :
    mainPackGen wpb rows cols ≠ .error .notImplementedCapacity := by
  intro h
  cases hb : bandedPack wpb rows cols with
  | ok s => simp [mainPackGen, hb] at h
  | error e =>
    have he := bandedPack_err_eq _ _ _ _ hb
    subst he
    cases hf : fallbackPack wpb rows cols with
    | ok s => simp [mainPackGen, hb, hf] at h
    | error e2 =>
      have he2 := fallbackPack_err_eq _ _ _ _ hf
      subst he2
      simp [mainPackGen, hb, hf] at h
theorem mainPackGen_ok_inv (wpb : List (BB × Nat)) (rows cols : Nat) (r : PackResult)
    (h : mainPackGen wpb rows cols = .ok r) :
    bandedPack wpb rows cols = .error .stopIteration
    ∧ ∃ s, fallbackPack wpb rows cols = .ok s ∧ r = .three s := by
  cases hb : bandedPack wpb rows cols with
  | ok s => simp [mainPackGen, hb] at h
  | error e =>
    have he := bandedPack_err_eq _ _ _ _ hb
    subst he
    refine ⟨rfl, ?_⟩
    cases hf : fallbackPack wpb rows cols with
    | ok s =>
      simp only [mainPackGen, hb, hf] at h
      injection h with h1
      exact ⟨s, rfl, h1.symm⟩
    | error e2 =>
      have he2 := fallbackPack_err_eq _ _ _ _ hf
      subst he2
      simp [mainPackGen, hb, hf] at h

/-! ## Lemmas about the Capacity Planner -/

theorem wellsPerBBDict_ok (tpw : Nat) (h : 0 < tpw) :
    ∀ counter : List (BB × Nat),
      wellsPerBBDict counter tpw
        = .ok (counter.map (fun kv => (kv.1, kv.2 / tpw + 1))) := by
  intro counter
  induction counter with
  | nil => rfl
  | cons kv rest ih =>
    obtain ⟨k, v⟩ := kv
    rw [wellsPerBBDict]
    have hz : ¬ tpw = 0 := by omega
    rw [pyDiv, if_neg hz]
    rw [ih]
    rfl

theorem div_add_one_of_not_dvd (tpw d : Nat) (h : 0 < tpw) (hd : 0 < d)
    (hnd : ¬ tpw ∣ d) : d / tpw + 1 = (d + tpw - 1) / tpw := by
  have e1 : d + tpw - 1 = (d - 1) + tpw := by omega
  rw [e1, Nat.add_div_right _ h]
  have hs := Nat.succ_div (d - 1) tpw
  have e2 : d - 1 + 1 = d := by omega
  rw [e2, if_neg hnd] at hs
  omega

theorem div_add_one_of_dvd (tpw d : Nat) (h : 0 < tpw) (hd : 0 < d)
    (hdvd : tpw ∣ d) : d / tpw + 1 = (d + tpw - 1) / tpw + 1 := by
  have e1 : d + tpw - 1 = (d - 1) + tpw := by omega
  rw [e1, Nat.add_div_right _ h]
  have hs := Nat.succ_div (d - 1) tpw
  have e2 : d - 1 + 1 = d := by omega
  rw [e2, if_pos hdvd] at hs
  omega
/-! ## The claims -/

/-- C1 (counterexample): the demand unit (well `B1`, code `I1`) selects
source well `A1` although `A1`'s assigned code in `srcSub` is `I12`, a
*different* reagent code — eligibility is Python substring containment
(`compound in source_well_val`), not equality of codes. -/
theorem matcher_selects_well_with_different_code :
    (runMatcher srcSub tgtReq 5).step1 = [⟨1, "A1", 1, "B1"⟩]
    ∧ pySubstr "I1" "I12" = true
    ∧ "I12" ≠ "I1" :=
  ⟨by decide, by decide, by decide⟩

/-- C1 (amended): a source well is selected for a demand unit only if the
requested compound string is a substring of the well's assigned code and
the well's remaining SourceLoad is strictly positive. -/
theorem source_selection_needs_substring_and_load (loads : Loads) (c : String)
    (src : SourceDict) (p : Nat) (w : String)
    (h : findSourceWell loads c src = some (p, w)) :
    ∃ ws v, (p, ws) ∈ src ∧ (w, v) ∈ ws ∧ pySubstr c v = true
      ∧ 0 < getLoad loads p w :=
  findSourceWell_spec loads c src p w h

/-- Witness for the amended C1 theorem at a concrete selection. -/
theorem source_selection_needs_substring_and_load_witness :
    ∃ ws v, ((1 : Nat), ws) ∈ srcSub ∧ ("A1", v) ∈ ws ∧ pySubstr "I1" v = true
      ∧ 0 < getLoad (initLoads srcSub 5) 1 "A1" :=
  source_selection_needs_substring_and_load (initLoads srcSub 5) "I1" srcSub 1 "A1"
    (by decide)

/-- C2 (code bug): the matcher has no unmet-demand diagnostics.  At this
input the single demand unit (`B1`, `T9`) matches no source well; the
function returns only the two step lists, both empty, so the unit is
silently dropped with nothing reported to the caller. -/
theorem unmet_demand_silently_dropped :
    demandUnits tgtT9 = [(1, "B1", "T9")]
    ∧ findSourceWell (initLoads srcOne 5) "T9" srcOne = none
    ∧ generate_pipetting_pattern srcOne tgtT9 5 = ([], []) :=
  ⟨by decide, rfl, by decide⟩

/-- C3 (confirmed): every SourceLoad counter starts at
`transfers_per_well`; no load is ever negative at any point of the run; a
selection always finds a strictly positive load (a well at load 0 is
never selected) and decrements exactly that load by exactly 1; and the
transfers drawing from any single source well never exceed
`transfers_per_well`. -/
theorem sourceload_invariants (src : SourceDict) (tgt : TargetDict) (tpw : Int)
    (htpw : 0 ≤ tpw) (hnd : (src.map Prod.fst).Nodup) :
    (∀ pw ∈ src, ∀ wv ∈ pw.2, getLoad (initLoads src tpw) pw.1 wv.1 = tpw)
    ∧ (∀ n p w, 0 ≤ getLoad (stateAfter src tgt tpw n).loads p w)
    ∧ (∀ n (hn : n < (demandUnits tgt).length) p w,
        findSourceWell (stateAfter src tgt tpw n).loads
            ((demandUnits tgt).get ⟨n, hn⟩).2.2 src = some (p, w) →
          0 < getLoad (stateAfter src tgt tpw n).loads p w
          ∧ getLoad (stateAfter src tgt tpw (n + 1)).loads p w
              = getLoad (stateAfter src tgt tpw n).loads p w - 1)
    ∧ (∀ p w, (countFrom (runMatcher src tgt tpw).step1 p w
        + countFrom (runMatcher src tgt tpw).step2 p w : Int) ≤ tpw) := by
  refine ⟨?_, ?_, ?_, ?_⟩
  · intro pw hpw wv hwv
    exact getLoad_initLoads_mem tpw pw.1 wv.1 wv.2 src hnd pw.2 hpw hwv
  · intro n p w
    exact (matcherInv_stateAfter src tgt tpw htpw n).1 p w
  · intro n hn p w hf
    obtain ⟨ws, v, _, _, _, hpos⟩ := findSourceWell_spec _ _ _ _ _ hf
    refine ⟨hpos, ?_⟩
    rw [stateAfter_succ src tgt tpw n hn, matchStep_loads_some _ _ _ _ _ hf]
    exact getLoad_decLoad_self p w _ (by omega)
  · intro p w
    have h1 := (matcherInv_runMatcher src tgt tpw htpw).1 p w
    have h2 := (matcherInv_runMatcher src tgt tpw htpw).2 p w
    rcases getLoad_initLoads_or src tpw p w with he | he <;> omega

/-- Witness for C3 at a concrete run with `transfers_per_well = 2`. -/
theorem sourceload_invariants_witness :
    ((0 : Int) ≤ 2 ∧ (srcOne.map Prod.fst).Nodup)
    ∧ (countFrom (runMatcher srcOne tgtReq 2).step1 1 "A1"
        + countFrom (runMatcher srcOne tgtReq 2).step2 1 "A1" : Int) ≤ 2 :=
  ⟨⟨by decide, by decide⟩,
    (sourceload_invariants srcOne tgtReq 2 (by decide) (by decide)).2.2.2 1 "A1"⟩
/-- C4 (counterexample): one category needing 4 wells with a 3-row,
1-column plate: the banded attempt is exhausted (the `I` band holds a
single well) and the category exceeds even the full 3-well plate, yet
`generateEchoCherrypickFile.py`'s packing flow ends in an uncaught
`StopIteration` — not in any capacity error (no such error exists in
that file). -/
theorem packer_cat_overflow_is_stopiteration :
    bandedPack exOverCat 3 1 = .error .stopIteration
    ∧ mainPackGen exOverCat 3 1 = .error .stopIteration
    ∧ (Except.error PyErr.stopIteration
        ≠ (Except.error PyErr.notImplementedCapacity : Except PyErr PackResult)) :=
  ⟨rfl, rfl, fun h => PyErr.noConfusion (Except.error.inj h)⟩

/-- C4 (amended): when the banded attempt is exhausted and some
category's requirement exceeds one full plate,
`generateEchoCherrypickFile.py` — the only variant whose packing code
runs — dies with an uncaught `StopIteration`; no input makes it raise
the capacity error.  In `echo_cherrypicking.py` the capacity check is
dead code: the `while finished is False` block before it never exits
normally — its body raises `TypeError` for any nonempty `wells_per_bb`
(in particular for this one). -/
theorem packer_capacity_behaviour (wpb : List (BB × Nat)) (rows cols : Nat)
    (h26 : rows ≤ 26)
    (hband : bandedPack wpb rows cols = .error .stopIteration)
    (hcat : ∃ bb ∈ (['I', 'M', 'T'] : List Char), rows * cols < catTotal wpb bb) :
    mainPackGen wpb rows cols = .error .stopIteration
    ∧ (∀ (w : List (BB × Nat)) (r c : Nat),
        mainPackGen w r c ≠ .error .notImplementedCapacity)
    ∧ (∀ w : List (BB × Nat), echoWhileBody w false ≠ .ok true)
    ∧ echoWhileBody wpb false = .error .typeError := by
  have hlen : (bandWells 0 rows cols).length = rows * cols :=
    bandWells_length rows cols h26
  have hfb : fallbackPack wpb rows cols = .error .stopIteration := by
    apply fallbackPack_err_of_cat
    rw [hlen]
    exact hcat
  refine ⟨?_, ?_, ?_, ?_⟩
  · simp [mainPackGen, hband, hfb]
  · exact fun w r c => mainPackGen_ne_capacity w r c
  · intro w h
    cases w with
    | nil => exact Bool.noConfusion (Except.ok.inj h)
    | cons kv rest => exact Except.noConfusion h
  · obtain ⟨bb, _, hlt⟩ := hcat
    cases wpb with
    | nil => simp [catTotal] at hlt
    | cons kv rest => rfl

/-- Witness for the amended C4 theorem at the overflow input. -/
theorem packer_capacity_behaviour_witness :
    mainPackGen exOverCat 3 1 = .error .stopIteration
    ∧ echoWhileBody exOverCat false = .error .typeError :=
  ⟨(packer_capacity_behaviour exOverCat 3 1 (by decide) rfl (by decide)).1,
    (packer_capacity_behaviour exOverCat 3 1 (by decide) rfl (by decide)).2.2.2⟩

/-- C5 (counterexample): sorting the dict with codes `M1` and `I2` yields
`[I2, M1]` — the element with the *larger* numeric suffix comes first, so
the output is not ordered primarily by numeric suffix. -/
theorem wellsPerBB_sort_not_numeric_primary :
    sortWellsPerBB exSort = [(⟨'I', 2⟩, 1), (⟨'M', 1⟩, 1)]
    ∧ ¬ (sortWellsPerBB exSort).Pairwise (fun a b =>
        a.1.num < b.1.num ∨ (a.1.num = b.1.num ∧ a.1.cat.toNat ≤ b.1.cat.toNat)) :=
  ⟨by decide, by decide⟩

/-- C5 (amended): because the *last* of the two stable sorts is the one
by `item[0][:1]`, the output is ordered primarily by category prefix
(code point, ascending) and secondarily by numeric suffix (ascending);
the sorted dict has exactly the input's entries. -/
theorem wellsPerBB_sort_cat_primary_num_secondary (l : List (BB × Nat)) :
    (sortWellsPerBB l).Pairwise (fun a b =>
      a.1.cat.toNat < b.1.cat.toNat
      ∨ (a.1.cat.toNat = b.1.cat.toNat ∧ a.1.num ≤ b.1.num))
    ∧ ∀ x, x ∈ sortWellsPerBB l ↔ x ∈ l := by
  constructor
  · exact pairwise_insSort_lex (fun it => it.1.num) (fun it => it.1.cat.toNat)
      (insSort (leKey (fun it => it.1.num)) l)
      (pairwise_insSort_key (fun it => it.1.num) l)
  · intro x
    rw [sortWellsPerBB, mem_insSort, mem_insSort]
/-- C6 (counterexample): at demand 9 and `transfers_per_well = 9` the
planner yields 2 wells, while `ceil(9/9) = 1` and `9/9 = 1` — so
`wells_per_reagent` is neither the ceiling nor `demand/tpw` in the
divisible case. -/
theorem wellsPerBB_not_ceiling :
    wellsPerBBDict [(⟨'I', 1⟩, 9)] 9 = .ok [(⟨'I', 1⟩, 2)]
    ∧ (9 + 9 - 1) / 9 = 1
    ∧ (9 : Nat) / 9 = 1
    ∧ (2 : Nat) ≠ 1 :=
  ⟨rfl, rfl, rfl, by decide⟩

/-- C6 (amended): the planner computes
`wells_per_reagent[r] = demand[r] / tpw + 1`, which is always ≥ 1; it
equals `ceil(demand/tpw)` exactly when `tpw` does not divide the demand,
and exceeds the ceiling by one when it does. -/
theorem wellsPerBB_formula (counter : List (BB × Nat)) (tpw : Nat) (h : 0 < tpw) :
    wellsPerBBDict counter tpw
      = .ok (counter.map (fun kv => (kv.1, kv.2 / tpw + 1)))
    ∧ (∀ d : Nat, 1 ≤ d / tpw + 1)
    ∧ (∀ d : Nat, 0 < d → ¬ tpw ∣ d → d / tpw + 1 = (d + tpw - 1) / tpw)
    ∧ (∀ d : Nat, 0 < d → tpw ∣ d → d / tpw + 1 = (d + tpw - 1) / tpw + 1) := by
  refine ⟨wellsPerBBDict_ok tpw h counter, fun d => Nat.succ_le_succ (Nat.zero_le _), ?_, ?_⟩
  · intro d hd hnd
    exact div_add_one_of_not_dvd tpw d h hd hnd
  · intro d hd hdvd
    exact div_add_one_of_dvd tpw d h hd hdvd

/-- Witness for the amended C6 theorem at demand 9, `tpw = 9`. -/
theorem wellsPerBB_formula_witness :
    wellsPerBBDict [(⟨'I', 1⟩, 9)] 9
      = .ok ([(⟨'I', 1⟩, 9)].map (fun kv => (kv.1, kv.2 / 9 + 1)))
    ∧ 9 / 9 + 1 = (9 + 9 - 1) / 9 + 1 :=
  ⟨(wellsPerBB_formula [(⟨'I', 1⟩, 9)] 9 (by decide)).1,
    (wellsPerBB_formula [(⟨'I', 1⟩, 9)] 9 (by decide)).2.2.2 9 (by decide) (by decide)⟩

/-- C7 (confirmed): the stage scheduler of `echo_cherrypicking.py` sorts
step 1 primarily by target plate and secondarily by source plate (both
ascending) and step 2 by target plate (ascending); both sorts are stable:
restricted to any fixed key, the output order is exactly the matcher's
original order. -/
theorem stage_scheduler_sorting (src : SourceDict) (tgt : TargetDict) (tpw : Int) :
    (generate_pipetting_pattern_sorted src tgt tpw).1.Pairwise
      (fun u v => u.tgtPlate < v.tgtPlate
        ∨ (u.tgtPlate = v.tgtPlate ∧ u.srcPlate ≤ v.srcPlate))
    ∧ (∀ a b : Nat,
        (generate_pipetting_pattern_sorted src tgt tpw).1.filter
            (fun t => t.tgtPlate == a && t.srcPlate == b)
          = (runMatcher src tgt tpw).step1.filter
            (fun t => t.tgtPlate == a && t.srcPlate == b))
    ∧ (generate_pipetting_pattern_sorted src tgt tpw).2.Pairwise
      (fun u v => u.tgtPlate ≤ v.tgtPlate)
    ∧ (∀ a : Nat,
        (generate_pipetting_pattern_sorted src tgt tpw).2.filter
            (fun t => t.tgtPlate == a)
          = (runMatcher src tgt tpw).step2.filter
            (fun t => t.tgtPlate == a)) := by
  dsimp only [generate_pipetting_pattern_sorted, sortByTgtPlate, sortBySrcPlate]
  refine ⟨?_, ?_, ?_, ?_⟩
  · exact pairwise_insSort_lex (fun t => t.srcPlate) (fun t => t.tgtPlate)
      (insSort (leKey (fun t => t.srcPlate)) (runMatcher src tgt tpw).step1)
      (pairwise_insSort_key (fun t => t.srcPlate) (runMatcher src tgt tpw).step1)
  · intro a b
    have hc1 : ∀ x y : Transfer, (x.tgtPlate == a && x.srcPlate == b) = true →
        (y.tgtPlate == a && y.srcPlate == b) = true → x.tgtPlate = y.tgtPlate := by
      intro x y hx hy
      simp only [Bool.and_eq_true, beq_iff_eq] at hx hy
      rw [hx.1, hy.1]
    have hc2 : ∀ x y : Transfer, (x.tgtPlate == a && x.srcPlate == b) = true →
        (y.tgtPlate == a && y.srcPlate == b) = true → x.srcPlate = y.srcPlate := by
      intro x y hx hy
      simp only [Bool.and_eq_true, beq_iff_eq] at hx hy
      rw [hx.2, hy.2]
    rw [filter_insSort_keyconst (fun t : Transfer => t.tgtPlate)
      (fun t : Transfer => t.tgtPlate == a && t.srcPlate == b) hc1]
    rw [filter_insSort_keyconst (fun t : Transfer => t.srcPlate)
      (fun t : Transfer => t.tgtPlate == a && t.srcPlate == b) hc2]
  · exact pairwise_insSort_key (fun t => t.tgtPlate) (runMatcher src tgt tpw).step2
  · intro a
    have hc : ∀ x y : Transfer, (x.tgtPlate == a) = true →
        (y.tgtPlate == a) = true → x.tgtPlate = y.tgtPlate := by
      intro x y hx hy
      simp only [beq_iff_eq] at hx hy
      rw [hx, hy]
    rw [filter_insSort_keyconst (fun t : Transfer => t.tgtPlate)
      (fun t : Transfer => t.tgtPlate == a) hc]
/-- C8 (counterexample): with usable capacity 5 and transfer volume 9 the
script computes `transfers_per_well = 0` and the wells-per-reagent
comprehension then raises `ZeroDivisionError`; nothing resembling the
spec's `ConfigurationError` exists in the code. -/
theorem planner_no_configuration_error :
    transfersPerWellCalc 5 9 = 0
    ∧ wellsPerBBDict [(⟨'I', 1⟩, 3)] (transfersPerWellCalc 5 9)
        = .error .zeroDivisionError
    ∧ (Except.error PyErr.zeroDivisionError
        ≠ (Except.error PyErr.configurationError : Except PyErr (List (BB × Nat)))) :=
  ⟨rfl, rfl, fun h => PyErr.noConfusion (Except.error.inj h)⟩

/-- C8 (amended): `transfers_per_well = usable // volume` (floor) with no
validation: whenever the usable capacity is below one transfer volume and
there is any demand, `transfers_per_well` is 0 and the per-reagent
division crashes with `ZeroDivisionError` — no `ConfigurationError` is
raised. -/
theorem planner_division_behaviour (usable vol : Nat) (counter : List (BB × Nat))
    (h : usable < vol) (hc : counter ≠ []) :
    transfersPerWellCalc usable vol = 0
    ∧ wellsPerBBDict counter (transfersPerWellCalc usable vol)
        = .error .zeroDivisionError := by
  have h0 : transfersPerWellCalc usable vol = 0 := Nat.div_eq_of_lt h
  refine ⟨h0, ?_⟩
  rw [h0]
  cases counter with
  | nil => exact absurd rfl hc
  | cons kv rest =>
    obtain ⟨k, v⟩ := kv
    rw [wellsPerBBDict, pyDiv, if_pos rfl]

/-- Witness for the amended C8 theorem at usable 5, volume 9. -/
theorem planner_division_behaviour_witness :
    transfersPerWellCalc 5 9 = 0
    ∧ wellsPerBBDict [(⟨'I', 1⟩, 3)] (transfersPerWellCalc 5 9)
        = .error .zeroDivisionError :=
  planner_division_behaviour 5 9 [(⟨'I', 1⟩, 3)] (by decide) (by decide)

/-- C9 (confirmed): with target content `1` (a compound containing none of
`I`, `M`, `T`) and source well `A1` assigned `I1`, the matcher consumes a
load from `A1` (since `1` is a substring of `I1`) yet appends the unit to
neither step list and returns no diagnostic: source capacity is spent with
no transfer recorded. -/
theorem load_consumed_without_transfer :
    getLoad (initLoads srcOne 5) 1 "A1" = 5
    ∧ getLoad (runMatcher srcOne tgtBare 5).loads 1 "A1" = 4
    ∧ generate_pipetting_pattern srcOne tgtBare 5 = ([], []) :=
  ⟨by decide, by decide, by decide⟩

/-- C10 (confirmed): in `generateEchoCherrypickFile.py`, whenever the
banded single-plate attempt completes, the next statement
`source = {0, source}` builds a set containing a dict and raises an
uncaught `TypeError`, so the single-plate success path never reaches
matching or output; a run reaches the matcher only through the
`StopIteration` fallback. -/
theorem single_plate_success_always_crashes (wpb : List (BB × Nat)) (rows cols : Nat) :
    (∀ s, bandedPack wpb rows cols = .ok s →
      mainPackGen wpb rows cols = .error .typeError)
    ∧ (∀ r, mainPackGen wpb rows cols = .ok r →
        bandedPack wpb rows cols = .error .stopIteration
        ∧ ∃ s, fallbackPack wpb rows cols = .ok s ∧ r = .three s) := by
  constructor
  · intro s hs
    simp [mainPackGen, hs]
  · intro r hr
    exact mainPackGen_ok_inv wpb rows cols r hr

/-- Witness for C10: a banded layout that fits, so the success path
crashes with the `TypeError`. -/
theorem single_plate_success_always_crashes_witness :
    mainPackGen exFitsBand 3 1 = .error .typeError :=
  (single_plate_success_always_crashes exFitsBand 3 1).1 [("A1", "I1")] rfl
